import Mathlib

/-!
Shallow embedding of the JNI bridge in src/native/llama_jni.cpp
(repository myungum/llama-cpp-jni-kotlin).

The bridge keeps a global registry mapping integer handles to sessions
(struct LlamaContext), a monotone handle counter (g_next_handle), and a
backend-initialization flag.  The external inference engine (llama.cpp)
is modelled as a functional oracle `Engine`: model loading, context
creation, tokenization, batched decode, logits retrieval, end-of-sequence
tests and token-to-text conversion are engine entry points whose results
the bridge only inspects; the oracle records, for each sequence of tokens
decoded since the last cache clear, the decode result and the logits at
the last position.  Logit scores (C floats) are modelled as rationals:
every property proved here is purely order-theoretic.  Machine integers
(jint, jlong, llama_token) are modelled as Int; the jlong handle counter
starts at 1 and is bumped by 1 per successful load, so its signed-overflow
point is unreachable in any execution this model quantifies over.
-/

namespace LlamaJni

/-- llama_token values (32-bit ints in the engine), modelled as Int. -/
abbrev Token := Int

/-- The inference context created by llama_init_from_model: its configured
context length (llama_n_ctx) and the sequence of tokens decoded into its
attention cache since the last llama_memory_clear. -/
structure Ctx where
  n_ctx : Nat
  cache : List Token
deriving DecidableEq, Repr

/-- struct LlamaContext from llama_jni.cpp: the per-session bundle.
`model` is a loaded-model reference (abstracted to an id; nullptr = none),
`context` the inference context (nullptr = none), `tokens` the running
token history (std::vector<llama_token>), `rng` the mt19937 state seeded
from process entropy at construction (never read by any operation). -/
structure LlamaContext where
  model : Option Nat
  context : Option Ctx
  tokens : List Token
  rng : Nat
deriving DecidableEq, Repr

/-- llama_context_params fields set by nativeLoadModel. -/
structure CtxParams where
  n_ctx : Nat
  n_batch : Int
  n_threads : Int
  n_threads_batch : Int
deriving DecidableEq, Repr

/-- Functional oracle for the external llama.cpp engine (see spec section 6:
the engine is an external collaborator with a fixed entry-point surface).
`tok s` is the token sequence the tokenizer produces for text `s` (add_bos,
no special parsing); llama_tokenize with capacity `cap` succeeds iff that
sequence fits, returning its length, else a negative count.  `decodeRes c`
is the llama_decode result when the decode brings the cleared cache to
token sequence `c`; `logitsOf c` the logits array at the last position
after decoding `c` (none = null pointer).  `hw` is
std::thread::hardware_concurrency(), `entropy` the std::random_device
draw used to seed a session rng. -/
structure Engine where
  loadModel : String → Option Nat
  initCtx : Nat → CtxParams → Option Unit
  tok : String → List Token
  logitsOf : List Token → Option (List ℚ)
  decodeRes : List Token → Int
  isEog : Token → Bool
  piece : Token → Int × String
  hw : Nat
  entropy : Nat

/-- The bridge's process-wide mutable state: g_contexts (handle → session,
modelled as an association list with fresh keys prepended), g_next_handle,
and g_backend_initialized.  All registry operations are serialized by
g_contexts_mutex in the source; this embedding models the linearized
sequential behaviour. -/
structure JniState where
  contexts : List (Int × LlamaContext)
  next_handle : Int
  backend_initialized : Bool
deriving DecidableEq, Repr

/-- get_context: lock-protected lookup of a handle in g_contexts
(nullptr when absent). -/
def get_context (s : JniState) (handle : Int) : Option LlamaContext :=
  (s.contexts.find? (fun p => p.1 == handle)).map Prod.snd

/-- In-place mutation of the session owned by `handle` (the C++ code
mutates the LlamaContext object through the pointer obtained from
get_context; the registry keys are untouched). -/
def setCtx (s : JniState) (handle : Int) (v : LlamaContext) : JniState :=
  { s with contexts := s.contexts.map (fun p => if p.1 == handle then (p.1, v) else p) }

/-- Thread-count resolution in nativeLoadModel (lines 144-157):
positive → verbatim; -1 → hardware_concurrency, falling back to 4 when
detection yields 0; any other value → 4. -/
def resolveThreads (threads : Int) (hw : Nat) : Int :=
  if 0 < threads then threads
  else if threads = -1 then (if 0 < hw then (hw : Int) else 4)
  else 4

/-- llama_context_params construction in nativeLoadModel (lines 139-157);
`cs` is the context size after the non-positive → 2048 substitution. -/
def loadParams (cs threads : Int) (hw : Nat) : CtxParams :=
  { n_ctx := cs.toNat
    n_batch := min 512 (cs / 4)
    n_threads := resolveThreads threads hw
    n_threads_batch := resolveThreads threads hw }

/-- The fully-constructed session inserted by a successful load: non-null
model, non-null context with empty cache, empty token history, rng seeded
from process entropy. -/
def sessionOf (e : Engine) (m : Nat) (n : Nat) : LlamaContext :=
  { model := some m
    context := some { n_ctx := n, cache := [] }
    tokens := []
    rng := e.entropy }

/-- Java_com_traycer_llama_LlamaWrapper_nativeLoadModel (lines 98-183).
`env` models the JNIEnv pointer being non-null, `modelPath` the jstring
(none = null).  Backend initialization happens first on every call; each
failure (null env/path, empty path, llama_model_load_from_file null,
llama_init_from_model null, and every caught exception, all of which
occur before the registry insert) returns 0 with the registry untouched;
success inserts the session under the next handle and bumps the counter. -/
def nativeLoadModel (e : Engine) (env : Bool) (modelPath : Option String)
    (contextSize threads : Int) (s : JniState) : Int × JniState :=
  let s1 : JniState := { s with backend_initialized := true }
  if env = false ∨ modelPath = none then (0, s1)
  else
    let path := modelPath.getD ""
    if path = "" then (0, s1)
    else
      let cs : Int := if contextSize ≤ 0 then 2048 else contextSize
      match e.loadModel path with
      | none => (0, s1)
      | some m =>
        match e.initCtx m (loadParams cs threads e.hw) with
        | none => (0, s1)
        | some _ =>
          (s1.next_handle,
           { s1 with
              next_handle := s1.next_handle + 1
              contexts := (s1.next_handle, sessionOf e m (loadParams cs threads e.hw).n_ctx) :: s1.contexts })

/-- Java_com_traycer_llama_LlamaWrapper_nativeCleanup (lines 356-377).
Returns the new state together with the list of sessions whose resources
were released (the erased unique_ptr destroys the LlamaContext, freeing
context then model).  Handle 0 and absent handles release nothing. -/
def nativeCleanup (handle : Int) (s : JniState) : JniState × List LlamaContext :=
  if handle = 0 then (s, [])
  else ({ s with contexts := s.contexts.filter (fun p => p.1 != handle) },
        (s.contexts.filter (fun p => p.1 == handle)).map Prod.snd)

/-- sample_token_greedy's scan (lines 82-90): running best index / best
logit, updated only on a strictly greater score. -/
def greedyAux : List ℚ → Nat → Nat → ℚ → Nat × ℚ
  | [], _, best, bl => (best, bl)
  | x :: xs, i, best, bl =>
    if bl < x then greedyAux xs (i + 1) i x else greedyAux xs (i + 1) best bl

/-- sample_token_greedy (lines 72-93) on a logits array of vocabulary
size n_vocab (the list's length): start from index 0 and scan indices
1..n_vocab-1, replacing the best only on logits[i] > best_logit.  The C++
null-pointer guards cannot fire at the loop's call site (ctx, model,
context and logits are all non-null there). -/
def sample_token_greedy (logits : List ℚ) : Nat :=
  match logits with
  | [] => 0
  | x :: xs => (greedyAux xs 1 0 x).1

/-- The per-token generation loop (lines 268-305), with `fuel` iterations
remaining (max_gen_tokens minus steps done), `cache` the tokens decoded
into the attention cache since the clear, `toks` ctx->tokens, `acc` the
accumulated result string.  Each step: read logits at the last position
(null → break), greedy-sample, break before emitting on end-of-sequence,
convert to a piece and append only when piece_len > 0, record the token
in the history, decode it (non-zero result → break). -/
def genLoop (e : Engine) : Nat → List Token → List Token → String → String × List Token × List Token
  | 0, cache, toks, acc => (acc, toks, cache)
  | fuel + 1, cache, toks, acc =>
    match e.logitsOf cache with
    | none => (acc, toks, cache)
    | some logits =>
      let t : Token := sample_token_greedy logits
      if e.isEog t then (acc, toks, cache)
      else
        let p := e.piece t
        let acc2 := if 0 < p.1 then acc ++ p.2 else acc
        let toks2 := toks ++ [t]
        let cache2 := cache ++ [t]
        if e.decodeRes cache2 = 0 then genLoop e fuel cache2 toks2 acc2
        else (acc2, toks2, cache2)

/-- The body of nativeGenerateText after the session and prompt checks
(lines 204-308), for a session whose context length is `N`: default
max_tokens substitution, history clear + full cache clear, tokenization
with capacity floor(N/2) (token buffer resized to the capacity first, so
a failed tokenization leaves a buffer of that length; its unspecified
partial contents are modelled as zeros), prefill decode of the whole
prompt, then the generation loop with ceiling min(maxTokens, N - n).
Returns (result text, final ctx->tokens, final cache contents). -/
def generateWith (e : Engine) (N : Nat) (input : String) (maxTokens : Int) :
    String × List Token × List Token :=
  let maxT : Int := if maxTokens ≤ 0 then 256 else maxTokens
  let maxIn : Nat := N / 2
  let toks := e.tok input
  if maxIn < toks.length then ("Error: Tokenization failed", List.replicate maxIn 0, [])
  else if e.decodeRes toks = 0 then
    genLoop e (min maxT ((N : Int) - toks.length)).toNat toks toks ""
  else ("Error: Failed to decode prompt", toks, toks)

/-- Java_com_traycer_llama_LlamaWrapper_nativeGenerateText (lines 186-317).
Parameter checks (null env/prompt, handle 0), handle lookup with null
model/context checks, empty-prompt check, then the generation body; the
session object is mutated in place, so error returns raised after the
clear still leave the rebuilt history/cache behind.  `temperature`,
`topP` and `topK` are accepted and never read (line 275 ignores them). -/
def nativeGenerateText (e : Engine) (env : Bool) (s : JniState) (handle : Int)
    (prompt : Option String) (maxTokens : Int) (temperature topP : ℚ) (topK : Int) :
    String × JniState :=
  if env = false ∨ prompt = none ∨ handle = 0 then ("Error: Invalid parameters", s)
  else
    match get_context s handle with
    | none => ("Error: Invalid handle or model not loaded", s)
    | some sess =>
      match sess.model, sess.context with
      | some m, some c =>
        let input := prompt.getD ""
        if input = "" then ("Error: Empty prompt", s)
        else
          let r := generateWith e c.n_ctx input maxTokens
          (r.1, setCtx s handle
            { model := some m
              context := some { n_ctx := c.n_ctx, cache := r.2.2 }
              tokens := r.2.1
              rng := sess.rng })
      | _, _ => ("Error: Invalid handle or model not loaded", s)

/-- A linearized trace step: a load request (with its JNIEnv validity,
path, context size and threads) or a cleanup request. -/
inductive Op where
  | load : Bool → Option String → Int → Int → Op
  | cleanup : Int → Op

/-- Run one trace operation, returning the new state and, for a load,
the value it returned. -/
def runOp (e : Engine) (s : JniState) : Op → JniState × Option Int
  | Op.load env mp cs th =>
    ((nativeLoadModel e env mp cs th s).2, some (nativeLoadModel e env mp cs th s).1)
  | Op.cleanup h => ((nativeCleanup h s).1, none)

/-- The handles issued by an operation's return value: a load's non-zero
result (0 signals failure and is never a handle). -/
def issued : Option Int → List Int
  | some h => if h = 0 then [] else [h]
  | none => []

/-- Run a trace of operations, collecting the issued handles in order. -/
def runOps (e : Engine) (s : JniState) : List Op → JniState × List Int
  | [] => (s, [])
  | op :: ops =>
    let r := runOp e s op
    let rest := runOps e r.1 ops
    (rest.1, issued r.2 ++ rest.2)

/-- The process-start state: empty registry, g_next_handle = 1, backend
not yet initialized (lines 41-44). -/
def s0 : JniState := { contexts := [], next_handle := 1, backend_initialized := false }

/-- Registry invariant: positive monotone counter dominating every live
handle, and no two live sessions share a handle value. -/
def Inv (s : JniState) : Prop :=
  0 < s.next_handle ∧ (s.contexts.map Prod.fst).Nodup ∧
    ∀ p ∈ s.contexts, 0 < p.1 ∧ p.1 < s.next_handle

/-- A concrete engine used to exercise the theorems on closed inputs:
every call succeeds, every prompt tokenizes to one token, greedy
sampling over [1, 3, 2] picks token 1, whose piece is "a". -/
def demoEngine : Engine :=
  { loadModel := fun _ => some 1
    initCtx := fun _ _ => some ()
    tok := fun _ => [5]
    logitsOf := fun _ => some [1, 3, 2]
    decodeRes := fun _ => 0
    isEog := fun t => t == 9
    piece := fun _ => (1, "a")
    hw := 8
    entropy := 0 }

/-! ### Case analysis of nativeLoadModel -/

/-- Every run of nativeLoadModel either fails — returning 0 with the
registry and counter untouched — or succeeds, returning the current
counter value, bumping it by one and pushing the fully-built session. -/
lemma nativeLoadModel_cases (e : Engine) (env : Bool) (mp : Option String)
    (cs th : Int) (s : JniState) :
    ((nativeLoadModel e env mp cs th s).1 = 0 ∧
     (nativeLoadModel e env mp cs th s).2.contexts = s.contexts ∧
     (nativeLoadModel e env mp cs th s).2.next_handle = s.next_handle) ∨
    ((nativeLoadModel e env mp cs th s).1 = s.next_handle ∧
     (nativeLoadModel e env mp cs th s).2.next_handle = s.next_handle + 1 ∧
     ∃ m, (nativeLoadModel e env mp cs th s).2.contexts =
       (s.next_handle,
        sessionOf e m (loadParams (if cs ≤ 0 then 2048 else cs) th e.hw).n_ctx) :: s.contexts) := by
  unfold nativeLoadModel
  by_cases h1 : env = false ∨ mp = none
  · simp [h1]
  · rw [if_neg h1]
    by_cases h2 : mp.getD "" = ""
    · simp [h2]
    · rw [if_neg h2]
      cases hm : e.loadModel (mp.getD "") with
      | none => simp [hm]
      | some m =>
        cases hi : e.initCtx m (loadParams (if cs ≤ 0 then 2048 else cs) th e.hw) with
        | none => simp [hm, hi]
        | some u => refine Or.inr ⟨?_, ?_, m, ?_⟩ <;> simp [hm, hi]

/-- C1: for every load request, any failing step (null environment, null
model path, empty path, model load failure, context-initialization
failure — the caught-exception paths all return before the insert)
yields handle 0 and leaves the registry exactly as it was; a non-zero
result inserts exactly one session, and that session carries a non-null
model and a non-null context, so no partially-constructed session is
ever visible. -/
theorem nativeLoadModel_failure_atomic (e : Engine) (env : Bool) (mp : Option String)
    (cs th : Int) (s : JniState) (hs : 0 < s.next_handle) :
    ((nativeLoadModel e env mp cs th s).1 = 0 →
      (nativeLoadModel e env mp cs th s).2.contexts = s.contexts) ∧
    ((nativeLoadModel e env mp cs th s).1 ≠ 0 →
      ∃ sess, sess.model.isSome ∧ sess.context.isSome ∧
        (nativeLoadModel e env mp cs th s).2.contexts =
          ((nativeLoadModel e env mp cs th s).1, sess) :: s.contexts) ∧
    (env = false → (nativeLoadModel e env mp cs th s).1 = 0) ∧
    (mp = none → (nativeLoadModel e env mp cs th s).1 = 0) ∧
    (mp = some "" → (nativeLoadModel e env mp cs th s).1 = 0) ∧
    (∀ p, mp = some p → e.loadModel p = none → (nativeLoadModel e env mp cs th s).1 = 0) ∧
    (∀ p m, mp = some p → e.loadModel p = some m →
      e.initCtx m (loadParams (if cs ≤ 0 then 2048 else cs) th e.hw) = none →
      (nativeLoadModel e env mp cs th s).1 = 0) := by
  refine ⟨?_, ?_, ?_, ?_, ?_, ?_, ?_⟩
  · intro h0
    rcases nativeLoadModel_cases e env mp cs th s with ⟨_, hc, _⟩ | ⟨hv, _, _⟩
    · exact hc
    · exact absurd (hv ▸ h0) (by omega)
  · intro hne
    rcases nativeLoadModel_cases e env mp cs th s with ⟨hv, _, _⟩ | ⟨hv, _, m, hc⟩
    · exact absurd hv hne
    · exact ⟨sessionOf e m (loadParams (if cs ≤ 0 then 2048 else cs) th e.hw).n_ctx,
        rfl, rfl, by rw [hc, hv]⟩
  · intro h; simp [nativeLoadModel, h]
  · intro h; simp [nativeLoadModel, h]
  · intro h; simp [nativeLoadModel, h]
  · intro p hp hload
    subst hp
    by_cases hpe : p = ""
    · simp [nativeLoadModel, hpe]
    · simp [nativeLoadModel, hpe, hload]
  · intro p m hp hload hinit
    subst hp
    by_cases hpe : p = ""
    · simp [nativeLoadModel, hpe]
    · simp [nativeLoadModel, hpe, hload, hinit]

/-- C1 witness: a load with a null path fails, returns 0, and leaves the
empty initial registry empty. -/
theorem nativeLoadModel_failure_atomic_witness :
    (0 : Int) < s0.next_handle ∧ (nativeLoadModel demoEngine false none 0 0 s0).1 = 0 :=
  ⟨by decide, (nativeLoadModel_failure_atomic demoEngine false none 0 0 s0 (by decide)).2.2.1 rfl⟩

/-! ### Cleanup: no-op on invalid handles, idempotent -/

/-- Destroying a handle that is 0 or absent from the registry changes
nothing and releases nothing. -/
lemma cleanup_absent (handle : Int) (s : JniState)
    (habs : handle = 0 ∨ get_context s handle = none) :
    nativeCleanup handle s = (s, []) := by
  by_cases h0 : handle = 0
  · simp [nativeCleanup, h0]
  · rcases habs with h0' | habs
    · exact absurd h0' h0
    · have hnone : s.contexts.find? (fun p => p.1 == handle) = none :=
        Option.map_eq_none'.mp habs
      have hall : ∀ p ∈ s.contexts, (p.1 == handle) = false := by
        intro p hp
        have := List.find?_eq_none.mp hnone p hp
        simpa using this
      unfold nativeCleanup
      rw [if_neg h0]
      have hfil1 : s.contexts.filter (fun p => p.1 != handle) = s.contexts := by
        refine List.filter_eq_self.mpr ?_
        intro p hp
        simp [bne, hall p hp]
      have hfil2 : s.contexts.filter (fun p => p.1 == handle) = [] := by
        refine List.filter_eq_nil_iff.mpr ?_
        intro p hp
        simp [hall p hp]
      rw [hfil1, hfil2]
      rfl

/-- C2: destroying an invalid handle (0, never-issued, or already
destroyed) is a silent no-op — the registry, every live session and the
whole state are unchanged and nothing is released; moreover, after any
cleanup call a second cleanup of the same handle changes nothing and
releases nothing, so repeating the call any number of times is
equivalent to calling it once and never double-releases a session's
model or context. -/
theorem nativeCleanup_noop_idempotent (handle : Int) (s : JniState) :
    ((handle = 0 ∨ get_context s handle = none) → nativeCleanup handle s = (s, [])) ∧
    (∀ s1 rel, nativeCleanup handle s = (s1, rel) → nativeCleanup handle s1 = (s1, [])) := by
  constructor
  · exact cleanup_absent handle s
  · intro s1 rel hrun
    by_cases h0 : handle = 0
    · have : (s, ([] : List LlamaContext)) = (s1, rel) := by
        simpa [nativeCleanup, h0] using hrun
      obtain ⟨hs1, -⟩ := Prod.mk.injEq .. ▸ this
      exact hs1 ▸ cleanup_absent handle s (Or.inl h0)
    · unfold nativeCleanup at hrun
      rw [if_neg h0] at hrun
      have hs1 : s1 = { s with contexts := s.contexts.filter (fun p => p.1 != handle) } := by
        have := congrArg Prod.fst hrun
        simpa using this.symm
      refine cleanup_absent handle s1 (Or.inr ?_)
      unfold get_context
      rw [Option.map_eq_none']
      refine List.find?_eq_none.mpr ?_
      intro p hp
      rw [hs1] at hp
      simp only [List.mem_filter] at hp
      simpa [bne] using hp.2


/-- C2 witness: cleaning up never-issued handle 5 on the initial state is
the identity and releases nothing. -/
theorem nativeCleanup_noop_idempotent_witness :
    ((5 : Int) = 0 ∨ get_context s0 5 = none) ∧ nativeCleanup 5 s0 = (s0, []) :=
  ⟨Or.inr rfl, (nativeCleanup_noop_idempotent 5 s0).1 (Or.inr rfl)⟩

/-! ### Thread-count resolution -/

/-- C9: thread resolution in nativeLoadModel — a positive request is used
verbatim, -1 auto-detects from hardware_concurrency with fallback 4 when
detection yields 0, any other non-positive request yields 4; the result
is always strictly positive and is installed identically as both
n_threads and n_threads_batch. -/
theorem resolveThreads_spec (th : Int) (hw : Nat) (cs : Int) :
    (0 < th → resolveThreads th hw = th) ∧
    (th = -1 → 0 < hw → resolveThreads th hw = (hw : Int)) ∧
    (th = -1 → hw = 0 → resolveThreads th hw = 4) ∧
    (th ≤ 0 → th ≠ -1 → resolveThreads th hw = 4) ∧
    0 < resolveThreads th hw ∧
    (loadParams cs th hw).n_threads = resolveThreads th hw ∧
    (loadParams cs th hw).n_threads_batch = resolveThreads th hw := by
  refine ⟨?_, ?_, ?_, ?_, ?_, rfl, rfl⟩
  · intro h; simp [resolveThreads, h]
  · intro h1 h2; subst h1; simp [resolveThreads, h2]
  · intro h1 h2; subst h1; subst h2; simp [resolveThreads]
  · intro h1 h2
    have hnp : ¬ 0 < th := by omega
    simp [resolveThreads, hnp, h2]
  · unfold resolveThreads
    split
    · omega
    · split
      · split
        · omega
        · omega
      · omega

/-- C9 witness: a verbatim positive request. -/
theorem resolveThreads_spec_witness :
    (0 : Int) < 4 ∧ resolveThreads 4 8 = 4 :=
  ⟨by decide, (resolveThreads_spec 4 8 512).1 (by decide)⟩

/-! ### Generation-loop step lemmas -/

/-- A loop step with null logits returns the accumulated text, history
and cache untouched. -/
lemma genLoop_succ_none (e : Engine) (fuel : Nat) (cache toks : List Token) (acc : String)
    (h : e.logitsOf cache = none) :
    genLoop e (fuel + 1) cache toks acc = (acc, toks, cache) := by
  simp [genLoop, h]

/-- A loop step whose greedy-selected token is end-of-sequence returns
immediately: nothing converted, appended or decoded. -/
lemma genLoop_succ_eog (e : Engine) (fuel : Nat) (cache toks : List Token) (acc : String)
    (logits : List ℚ) (h : e.logitsOf cache = some logits)
    (he : e.isEog (sample_token_greedy logits : Token) = true) :
    genLoop e (fuel + 1) cache toks acc = (acc, toks, cache) := by
  simp [genLoop, h, he]

/-- A loop step on a non-end-of-sequence token whose decode succeeds:
piece appended only when its length is positive, token recorded in the
history and in the cache, loop continues with one less fuel. -/
lemma genLoop_succ_cont (e : Engine) (fuel : Nat) (cache toks : List Token) (acc : String)
    (logits : List ℚ) (t : Token) (h : e.logitsOf cache = some logits)
    (ht : t = (sample_token_greedy logits : Token)) (he : e.isEog t = false)
    (hd : e.decodeRes (cache ++ [t]) = 0) :
    genLoop e (fuel + 1) cache toks acc =
      genLoop e fuel (cache ++ [t]) (toks ++ [t])
        (if 0 < (e.piece t).1 then acc ++ (e.piece t).2 else acc) := by
  subst ht
  simp [genLoop, h, he, hd]

/-- A loop step on a non-end-of-sequence token whose decode fails: the
token's piece (when positive-length) is already in the text, the token is
recorded, and the loop stops returning the accumulated text. -/
lemma genLoop_succ_break (e : Engine) (fuel : Nat) (cache toks : List Token) (acc : String)
    (logits : List ℚ) (t : Token) (h : e.logitsOf cache = some logits)
    (ht : t = (sample_token_greedy logits : Token)) (he : e.isEog t = false)
    (hd : e.decodeRes (cache ++ [t]) ≠ 0) :
    genLoop e (fuel + 1) cache toks acc =
      ((if 0 < (e.piece t).1 then acc ++ (e.piece t).2 else acc), toks ++ [t], cache ++ [t]) := by
  subst ht
  simp [genLoop, h, he, hd]

/-- The loop appends at most `fuel` tokens to the history. -/
lemma genLoop_tokens_le (e : Engine) :
    ∀ (fuel : Nat) (cache toks : List Token) (acc : String),
      ((genLoop e fuel cache toks acc).2.1).length ≤ toks.length + fuel := by
  intro fuel
  induction fuel with
  | zero => intro cache toks acc; simp [genLoop]
  | succ n ih =>
    intro cache toks acc
    unfold genLoop
    cases h : e.logitsOf cache with
    | none => simp
    | some logits =>
      simp only []
      by_cases he : e.isEog (sample_token_greedy logits : Token)
      · simp [he]
      · simp only [he, if_false, Bool.false_eq_true]
        by_cases hd : e.decodeRes (cache ++ [(sample_token_greedy logits : Token)]) = 0
        · rw [if_pos hd]
          calc ((genLoop e n _ (toks ++ [(sample_token_greedy logits : Token)]) _).2.1).length
              ≤ (toks ++ [(sample_token_greedy logits : Token)]).length + n := ih _ _ _
            _ = toks.length + (n + 1) := by simp; omega
        · rw [if_neg hd]
          simp

/-- Every token the loop adds to the history is a freshly generated
non-end-of-sequence token appended on the right. -/
lemma genLoop_gen_tokens (e : Engine) :
    ∀ (fuel : Nat) (cache toks : List Token) (acc : String),
      ∃ gts, (genLoop e fuel cache toks acc).2.1 = toks ++ gts ∧
        ∀ t ∈ gts, e.isEog t = false := by
  intro fuel
  induction fuel with
  | zero => intro cache toks acc; exact ⟨[], by simp [genLoop], by simp⟩
  | succ n ih =>
    intro cache toks acc
    cases h : e.logitsOf cache with
    | none => exact ⟨[], by simp [genLoop_succ_none e n cache toks acc h], by simp⟩
    | some logits =>
      by_cases he : e.isEog (sample_token_greedy logits : Token)
      · exact ⟨[], by simp [genLoop_succ_eog e n cache toks acc logits h he], by simp⟩
      · have he' : e.isEog (sample_token_greedy logits : Token) = false := by
          simpa using he
        by_cases hd : e.decodeRes (cache ++ [(sample_token_greedy logits : Token)]) = 0
        · obtain ⟨gts, hgts, hall⟩ := ih (cache ++ [(sample_token_greedy logits : Token)])
            (toks ++ [(sample_token_greedy logits : Token)])
            (if 0 < (e.piece (sample_token_greedy logits : Token)).1
             then acc ++ (e.piece (sample_token_greedy logits : Token)).2 else acc)
          refine ⟨(sample_token_greedy logits : Token) :: gts, ?_, ?_⟩
          · rw [genLoop_succ_cont e n cache toks acc logits _ h rfl he' hd, hgts]
            simp
          · intro t htm
            rcases List.mem_cons.mp htm with rfl | htm
            · exact he'
            · exact hall t htm
        · refine ⟨[(sample_token_greedy logits : Token)], ?_, ?_⟩
          · rw [genLoop_succ_break e n cache toks acc logits _ h rfl he' hd]
          · intro t htm
            rcases List.mem_singleton.mp htm with rfl
            exact he'

/-- C6: whenever the token selected at a generation step is an
end-of-sequence marker, the loop stops on the spot — the token is not
converted to text, not appended to the token history, and not decoded —
and globally every token the loop ever appends to the history is a
non-end-of-sequence token, so an end-of-sequence token never contributes
a fragment to the returned text. -/
theorem genLoop_eog_stops (e : Engine) :
    (∀ (fuel : Nat) (cache toks : List Token) (acc : String) (logits : List ℚ),
      e.logitsOf cache = some logits →
      e.isEog (sample_token_greedy logits : Token) = true →
      genLoop e (fuel + 1) cache toks acc = (acc, toks, cache)) ∧
    (∀ (fuel : Nat) (cache toks : List Token) (acc : String),
      ∃ gts, (genLoop e fuel cache toks acc).2.1 = toks ++ gts ∧
        ∀ t ∈ gts, e.isEog t = false) :=
  ⟨fun fuel cache toks acc logits h he => genLoop_succ_eog e fuel cache toks acc logits h he,
   genLoop_gen_tokens e⟩

/-- An engine whose greedy-selected token (index 1 for logits [1, 3, 2])
is an end-of-sequence marker. -/
def eogEngine : Engine := { demoEngine with isEog := fun t => t == 1 }

/-- C6 witness: with logits [1, 3, 2] the greedy token 1 is
end-of-sequence and a one-step loop returns everything untouched. -/
theorem genLoop_eog_stops_witness :
    eogEngine.logitsOf [] = some [1, 3, 2] ∧
    eogEngine.isEog (sample_token_greedy [1, 3, 2] : Token) = true ∧
    genLoop eogEngine 1 [] [] "" = ("", [], []) :=
  ⟨rfl, by decide, (genLoop_eog_stops eogEngine).1 0 [] [] "" [1, 3, 2] rfl (by decide)⟩

/-- C10: a generation step whose selected token converts to a
non-positive piece length appends no characters to the result text, yet
the token is still appended to the session history, still submitted to
the engine as the next single-token decode, and still consumes one unit
of the generation ceiling. -/
theorem genLoop_silent_token (e : Engine) (fuel : Nat) (cache toks : List Token)
    (acc : String) (logits : List ℚ) (t : Token) (h : e.logitsOf cache = some logits)
    (ht : t = (sample_token_greedy logits : Token)) (he : e.isEog t = false)
    (hp : (e.piece t).1 ≤ 0) (hd : e.decodeRes (cache ++ [t]) = 0) :
    genLoop e (fuel + 1) cache toks acc = genLoop e fuel (cache ++ [t]) (toks ++ [t]) acc := by
  rw [genLoop_succ_cont e fuel cache toks acc logits t h ht he hd, if_neg (by omega)]

/-- An engine whose token-to-piece conversion yields length 0 (the piece
is dropped from the text). -/
def silentEngine : Engine := { demoEngine with piece := fun _ => (0, "") }

/-- C10 witness: one silent step still records token 1 in the history and
cache while producing no text. -/
theorem genLoop_silent_token_witness :
    genLoop silentEngine 1 [] [] "" = ("", [1], [1]) ∧
    genLoop silentEngine 1 [] [] "" = genLoop silentEngine 0 [1] [1] "" := by
  constructor
  · decide
  · exact genLoop_silent_token silentEngine 0 [] [] "" [1, 3, 2] 1 (by decide)
      (by decide) (by decide) (by decide) (by decide)

/-! ### Greedy arg-max -/

/-- getD at an in-range index is the indexed element. -/
lemma getD_eq_get (l : List ℚ) (j : Nat) (h : j < l.length) : l.getD j 0 = l[j] := by
  simp [List.getD_eq_getElem?_getD, List.getElem?_eq_getElem h]

/-- Invariant of the greedy scan: starting at position `i` with current
best index `best` (value `bl`, maximal so far and strictly above every
earlier entry), the scan ends on the least index attaining the maximum. -/
lemma greedyAux_spec (L : List ℚ) :
    ∀ (n i best : Nat) (bl : ℚ), L.length - i = n → best < i → best < L.length →
      L.getD best 0 = bl →
      (∀ j, j < i → j < L.length → L.getD j 0 ≤ bl) →
      (∀ j, j < best → L.getD j 0 < bl) →
      (greedyAux (L.drop i) i best bl).1 < L.length ∧
      L.getD (greedyAux (L.drop i) i best bl).1 0 = (greedyAux (L.drop i) i best bl).2 ∧
      (∀ j, j < L.length → L.getD j 0 ≤ (greedyAux (L.drop i) i best bl).2) ∧
      (∀ j, j < (greedyAux (L.drop i) i best bl).1 →
        L.getD j 0 < (greedyAux (L.drop i) i best bl).2) := by
  intro n
  induction n with
  | zero =>
    intro i best bl hni hbi hbL hgb hle hlt
    have hiL : L.length ≤ i := by omega
    rw [List.drop_eq_nil_of_le hiL]
    simp only [greedyAux]
    exact ⟨hbL, hgb, fun j hjL => hle j (by omega) hjL, hlt⟩
  | succ n ih =>
    intro i best bl hni hbi hbL hgb hle hlt
    have hiL : i < L.length := by omega
    rw [List.drop_eq_getElem_cons hiL]
    simp only [greedyAux]
    by_cases hx : bl < L[i]
    · rw [if_pos hx]
      refine ih (i + 1) i (L[i]) (by omega) (by omega) hiL (getD_eq_get L i hiL) ?_ ?_
      · intro j hj hjL
        rcases Nat.lt_succ_iff_lt_or_eq.mp hj with hj' | rfl
        · exact le_of_lt (lt_of_le_of_lt (hle j hj' hjL) hx)
        · exact le_of_eq (getD_eq_get L j hjL)
      · intro j hj
        exact lt_of_le_of_lt (hle j (by omega) (by omega)) hx
    · rw [if_neg hx]
      have hxle : L[i] ≤ bl := le_of_not_lt hx
      refine ih (i + 1) best bl (by omega) (by omega) hbL hgb ?_ hlt
      intro j hj hjL
      rcases Nat.lt_succ_iff_lt_or_eq.mp hj with hj' | rfl
      · exact hle j hj' hjL
      · rw [getD_eq_get L j hjL]; exact hxle

/-- The selected index is in range, its score dominates every entry, and
every strictly earlier entry is strictly below it (first maximum wins). -/
lemma sample_token_greedy_spec (logits : List ℚ) (h : 0 < logits.length) :
    sample_token_greedy logits < logits.length ∧
    (∀ j, j < logits.length → logits.getD j 0 ≤ logits.getD (sample_token_greedy logits) 0) ∧
    (∀ j, j < sample_token_greedy logits →
      logits.getD j 0 < logits.getD (sample_token_greedy logits) 0) := by
  cases logits with
  | nil => simp at h
  | cons x xs =>
    have hgb : (x :: xs).getD 0 0 = x := by simp
    have hle : ∀ j, j < 1 → j < (x :: xs).length → (x :: xs).getD j 0 ≤ x := by
      intro j hj hjL
      have hj0 : j = 0 := by omega
      subst hj0
      simp
    have hlt : ∀ j, j < 0 → (x :: xs).getD j 0 < x := by
      intro j hj
      exact absurd hj (Nat.not_lt_zero j)
    have hspec := greedyAux_spec (x :: xs) xs.length 1 0 x (by simp) (by omega) (by simp)
      hgb hle hlt
    exact ⟨hspec.1, hspec.2.1 ▸ ⟨hspec.2.2.1, hspec.2.2.2⟩⟩

/-- C5: on any logits array over a non-empty vocabulary, the selected
token is the one with the strictly highest score, ties broken toward the
lowest token id (first occurrence in a left-to-right scan): the selected
index is in range, weakly dominates every score, and strictly dominates
every score at a lower index; and the greedy rule is the only selection
policy — temperature, top_p and top_k have no effect on any generation
call's result. -/
theorem greedy_argmax_first (logits : List ℚ) (h : 0 < logits.length) :
    sample_token_greedy logits < logits.length ∧
    (∀ j, j < logits.length → logits.getD j 0 ≤ logits.getD (sample_token_greedy logits) 0) ∧
    (∀ j, j < sample_token_greedy logits →
      logits.getD j 0 < logits.getD (sample_token_greedy logits) 0) ∧
    (∀ (e : Engine) (env : Bool) (s : JniState) (hdl : Int) (p : Option String) (mt : Int)
      (te te2 tp tp2 : ℚ) (tk tk2 : Int),
      nativeGenerateText e env s hdl p mt te tp tk = nativeGenerateText e env s hdl p mt te2 tp2 tk2) :=
  ⟨(sample_token_greedy_spec logits h).1, (sample_token_greedy_spec logits h).2.1,
   (sample_token_greedy_spec logits h).2.2,
   fun _ _ _ _ _ _ _ _ _ _ _ _ => rfl⟩

/-- C5 witness: on logits [1, 3, 3, 2] the scan selects index 1 (the
first of the two maximal scores). -/
theorem greedy_argmax_first_witness :
    0 < ([1, 3, 3, 2] : List ℚ).length ∧ sample_token_greedy [1, 3, 3, 2] = 1 ∧
    sample_token_greedy [1, 3, 3, 2] < ([1, 3, 3, 2] : List ℚ).length :=
  ⟨by decide, by decide, (greedy_argmax_first [1, 3, 3, 2] (by decide)).1⟩

/-! ### Reduction of nativeGenerateText on a valid session -/

/-- The session object as it stands after a generation call on a session
with context length `N`, model `m` and rng state `r`: model and context
preserved, cache and history rebuilt by the call. -/
def postSess (e : Engine) (N : Nat) (p : String) (mt : Int) (m : Nat) (r : Nat) : LlamaContext :=
  { model := some m
    context := some { n_ctx := N, cache := (generateWith e N p mt).2.2 }
    tokens := (generateWith e N p mt).2.1
    rng := r }

/-- On a resolvable handle with non-null model and context and a
non-empty prompt, nativeGenerateText runs the generation body and writes
the rebuilt session back in place. -/
lemma generate_valid_full (e : Engine) (s : JniState) (handle : Int) (sess : LlamaContext)
    (m : Nat) (c : Ctx) (p : String) (mt : Int) (te tp : ℚ) (tk : Int)
    (hget : get_context s handle = some sess) (hm : sess.model = some m)
    (hc : sess.context = some c) (hh : handle ≠ 0) (hp : p ≠ "") :
    nativeGenerateText e true s handle (some p) mt te tp tk =
      ((generateWith e c.n_ctx p mt).1, setCtx s handle (postSess e c.n_ctx p mt m sess.rng)) := by
  have hguard : ¬(true = false ∨ (some p : Option String) = none ∨ handle = 0) := by
    simp [hh]
  unfold nativeGenerateText
  rw [if_neg hguard]
  simp only [hget, hm, hc, Option.getD_some, if_neg hp]
  rfl

/-- After an in-place session update, looking the handle up again yields
the updated session. -/
lemma find?_snd_after_set (l : List (Int × LlamaContext)) (h : Int) (v : LlamaContext)
    (hs : (l.find? (fun p => p.1 == h)).isSome) :
    ((l.map (fun p => if p.1 == h then (p.1, v) else p)).find? (fun p => p.1 == h)).map Prod.snd
      = some v := by
  induction l with
  | nil => simp at hs
  | cons q l ih =>
    by_cases hq : (q.1 == h) = true
    · rw [List.map_cons, if_pos hq]
      simp [List.find?, hq]
    · have hq' : (q.1 == h) = false := by simpa using hq
      rw [List.map_cons, if_neg hq]
      simp only [List.find?, hq']
      refine ih ?_
      simpa [List.find?, hq'] using hs

/-- get_context after setCtx on a present handle returns the new value. -/
lemma get_context_setCtx (s : JniState) (handle : Int) (v : LlamaContext)
    (hs : (get_context s handle).isSome) :
    get_context (setCtx s handle v) handle = some v := by
  unfold get_context setCtx
  unfold get_context at hs
  exact find?_snd_after_set s.contexts handle v (by simpa using hs)

/-- Writing the same session value back twice is the same as writing it
once. -/
lemma setCtx_setCtx (s : JniState) (handle : Int) (v : LlamaContext) :
    setCtx (setCtx s handle v) handle v = setCtx s handle v := by
  unfold setCtx
  simp only [List.map_map]
  congr 1
  refine List.map_congr_left ?_
  intro q _
  by_cases hq : (q.1 == handle) = true
  · simp [Function.comp, hq]
  · simp [Function.comp, hq]

/-! ### Bounds of the generation body -/

/-- The generation body keeps the rebuilt history within the context
length: an over-long prompt is rejected with a tokenization error (its
buffer has length floor(N/2)), an accepted prompt has at most floor(N/2)
tokens, and the loop adds at most min(maxTokens-after-default,
N - prompt_count) more. -/
lemma generateWith_tokens (e : Engine) (N : Nat) (p : String) (mt : Int) :
    ((generateWith e N p mt).2.1).length ≤ N ∧
    (N / 2 < (e.tok p).length →
      (generateWith e N p mt).1 = "Error: Tokenization failed") ∧
    ((e.tok p).length ≤ N / 2 →
      (((generateWith e N p mt).2.1).length : Int) ≤
        (e.tok p).length + min (if mt ≤ 0 then 256 else mt) ((N : Int) - (e.tok p).length)) := by
  have hds : (0 : Int) < if mt ≤ 0 then 256 else mt := by split <;> omega
  simp only [generateWith]
  by_cases h1 : N / 2 < (e.tok p).length
  · rw [if_pos h1]
    refine ⟨?_, fun _ => rfl, fun h2 => absurd h1 (by omega)⟩
    simpa using Nat.div_le_self N 2
  · rw [if_neg h1]
    have hn : (e.tok p).length ≤ N / 2 := by omega
    have hnN : (e.tok p).length ≤ N := le_trans hn (Nat.div_le_self N 2)
    by_cases h2 : e.decodeRes (e.tok p) = 0
    · rw [if_pos h2]
      have hloop := genLoop_tokens_le e
        (min (if mt ≤ 0 then 256 else mt) ((N : Int) - (e.tok p).length)).toNat
        (e.tok p) (e.tok p) ""
      have hminle : min (if mt ≤ 0 then 256 else mt) ((N : Int) - (e.tok p).length)
          ≤ (N : Int) - (e.tok p).length := min_le_right _ _
      refine ⟨by omega, fun h => absurd h (by omega), fun _ => by omega⟩
    · rw [if_neg h2]
      refine ⟨hnN, fun h => absurd h (by omega), fun _ => ?_⟩
      have hmin : (0 : Int) ≤ min (if mt ≤ 0 then 256 else mt) ((N : Int) - (e.tok p).length) :=
        le_min (by omega) (by omega)
      show ((e.tok p).length : Int) ≤
        (e.tok p).length + min (if mt ≤ 0 then 256 else mt) ((N : Int) - (e.tok p).length)
      omega

/-- C7: on a valid session with a tokenizable prompt, a non-zero engine
result on the batched prompt submission (prefill) aborts the call with
the decode-failure error string and no generated text, whereas inside
the per-token loop a null logits pointer returns the accumulated text
unchanged as a normal result, and a non-zero decode result stops the
loop returning the text accumulated so far (the freshly selected token's
piece included) — not an error string. -/
theorem generate_prefill_vs_loop (e : Engine) (s : JniState) (handle : Int)
    (sess : LlamaContext) (m : Nat) (c : Ctx) (p : String) (mt : Int) (te tp : ℚ) (tk : Int)
    (hget : get_context s handle = some sess) (hm : sess.model = some m)
    (hc : sess.context = some c) (hh : handle ≠ 0) (hp : p ≠ "")
    (htok : (e.tok p).length ≤ c.n_ctx / 2) :
    (e.decodeRes (e.tok p) ≠ 0 →
      (nativeGenerateText e true s handle (some p) mt te tp tk).1 =
        "Error: Failed to decode prompt") ∧
    (∀ (fuel : Nat) (cache toks : List Token) (acc : String),
      e.logitsOf cache = none →
      genLoop e (fuel + 1) cache toks acc = (acc, toks, cache)) ∧
    (∀ (fuel : Nat) (cache toks : List Token) (acc : String) (logits : List ℚ) (t : Token),
      e.logitsOf cache = some logits → t = (sample_token_greedy logits : Token) →
      e.isEog t = false → e.decodeRes (cache ++ [t]) ≠ 0 →
      genLoop e (fuel + 1) cache toks acc =
        ((if 0 < (e.piece t).1 then acc ++ (e.piece t).2 else acc),
         toks ++ [t], cache ++ [t])) := by
  refine ⟨?_, fun fuel cache toks acc h => genLoop_succ_none e fuel cache toks acc h,
    fun fuel cache toks acc logits t h ht he hd =>
      genLoop_succ_break e fuel cache toks acc logits t h ht he hd⟩
  intro hdec
  rw [generate_valid_full e s handle sess m c p mt te tp tk hget hm hc hh hp]
  simp only [generateWith]
  rw [if_neg (by omega : ¬ c.n_ctx / 2 < (e.tok p).length), if_neg hdec]

/-- An engine whose decode always fails. -/
def failEngine : Engine := { demoEngine with decodeRes := fun _ => 1 }

/-- A registry holding one valid session under handle 1 with context
length 8. -/
def demoSess : LlamaContext :=
  { model := some 1, context := some { n_ctx := 8, cache := [] }, tokens := [], rng := 0 }

/-- A state whose registry holds demoSess under handle 1. -/
def demoState : JniState :=
  { contexts := [(1, demoSess)], next_handle := 2, backend_initialized := true }

/-- C7 witness: a failing prefill on the valid demo session yields the
decode-failure error string. -/
theorem generate_prefill_vs_loop_witness :
    failEngine.decodeRes (failEngine.tok "hi") ≠ 0 ∧
    (nativeGenerateText failEngine true demoState 1 (some "hi") 4 0 0 0).1 =
      "Error: Failed to decode prompt" :=
  ⟨by decide,
   (generate_prefill_vs_loop failEngine demoState 1 demoSess 1 { n_ctx := 8, cache := [] }
      "hi" 4 0 0 0 rfl rfl rfl (by decide) (by decide) (by decide)).1 (by decide)⟩

/-- C4: on a valid session of context length N, the call stores back a
session whose token history never exceeds N: a prompt tokenizing to more
than floor(N/2) tokens is rejected (tokenization error), an accepted
prompt contributes at most floor(N/2) tokens, and the loop generates at
most min(maxTokens-after-default-substitution, N - prompt_token_count)
further tokens (the history only grows during the call, so every
intermediate history is a prefix of the stored one and obeys the same
bound; the transient tokenization buffer has length floor(N/2) ≤ N). -/
theorem generate_respects_context_bound (e : Engine) (s : JniState) (handle : Int)
    (sess : LlamaContext) (m : Nat) (c : Ctx) (p : String) (mt : Int) (te tp : ℚ) (tk : Int)
    (hget : get_context s handle = some sess) (hm : sess.model = some m)
    (hc : sess.context = some c) (hh : handle ≠ 0) (hp : p ≠ "") :
    ∃ sess2,
      get_context (nativeGenerateText e true s handle (some p) mt te tp tk).2 handle
        = some sess2 ∧
      sess2.tokens.length ≤ c.n_ctx ∧
      (c.n_ctx / 2 < (e.tok p).length →
        (nativeGenerateText e true s handle (some p) mt te tp tk).1 =
          "Error: Tokenization failed") ∧
      ((e.tok p).length ≤ c.n_ctx / 2 →
        ((sess2.tokens.length : Int) ≤
          (e.tok p).length +
            min (if mt ≤ 0 then 256 else mt) ((c.n_ctx : Int) - (e.tok p).length))) := by
  rw [generate_valid_full e s handle sess m c p mt te tp tk hget hm hc hh hp]
  refine ⟨postSess e c.n_ctx p mt m sess.rng, ?_, ?_, ?_, ?_⟩
  · exact get_context_setCtx s handle _ (by rw [hget]; rfl)
  · exact (generateWith_tokens e c.n_ctx p mt).1
  · exact fun h => (generateWith_tokens e c.n_ctx p mt).2.1 h
  · exact fun h => (generateWith_tokens e c.n_ctx p mt).2.2 h

/-- C4 witness: the demo session (context length 8, one-token prompt)
after a generation call. -/
theorem generate_respects_context_bound_witness :
    ∃ sess2,
      get_context (nativeGenerateText demoEngine true demoState 1 (some "hi") 4 0 0 0).2 1
        = some sess2 ∧
      sess2.tokens.length ≤ ({ n_ctx := 8, cache := [] } : Ctx).n_ctx ∧
      (({ n_ctx := 8, cache := [] } : Ctx).n_ctx / 2 < (demoEngine.tok "hi").length →
        (nativeGenerateText demoEngine true demoState 1 (some "hi") 4 0 0 0).1 =
          "Error: Tokenization failed") ∧
      ((demoEngine.tok "hi").length ≤ ({ n_ctx := 8, cache := [] } : Ctx).n_ctx / 2 →
        ((sess2.tokens.length : Int) ≤
          (demoEngine.tok "hi").length +
            min (if (4 : Int) ≤ 0 then 256 else 4)
              ((({ n_ctx := 8, cache := [] } : Ctx).n_ctx : Int) - (demoEngine.tok "hi").length))) :=
  generate_respects_context_bound demoEngine demoState 1 demoSess 1
    { n_ctx := 8, cache := [] } "hi" 4 0 0 0 rfl rfl rfl (by decide) (by decide)

/-- C8: two consecutive generation calls with the same arguments on the
same state produce the same text and the same final state — the call
clears the session's token history and fully clears the context's
attention cache before doing anything else, so the second call starts
from the same clean slate as the first (this holds for every handle and
prompt, valid or not; the parameters the loop reads — model presence,
context presence, context length — are preserved by the first call). -/
theorem generate_deterministic (e : Engine) (env : Bool) (s : JniState) (handle : Int)
    (prompt : Option String) (mt : Int) (te tp : ℚ) (tk : Int) :
    nativeGenerateText e env (nativeGenerateText e env s handle prompt mt te tp tk).2
        handle prompt mt te tp tk
      = nativeGenerateText e env s handle prompt mt te tp tk := by
  by_cases hg : env = false ∨ prompt = none ∨ handle = 0
  · simp [nativeGenerateText, hg]
  · push_neg at hg
    obtain ⟨henv, hpn, hh⟩ := hg
    have henv' : env = true := by cases env <;> simp_all
    obtain ⟨p, rfl⟩ : ∃ p, prompt = some p := Option.ne_none_iff_exists'.mp hpn
    subst henv'
    cases hget : get_context s handle with
    | none => simp [nativeGenerateText, hget, hh]
    | some sess =>
      cases hmod : sess.model with
      | none => simp [nativeGenerateText, hget, hh, hmod]
      | some m =>
        cases hctx : sess.context with
        | none => simp [nativeGenerateText, hget, hh, hmod, hctx]
        | some c =>
          by_cases hpe : p = ""
          · simp [nativeGenerateText, hget, hh, hmod, hctx, hpe]
          · rw [generate_valid_full e s handle sess m c p mt te tp tk hget hmod hctx hh hpe]
            have hget2 : get_context (setCtx s handle (postSess e c.n_ctx p mt m sess.rng)) handle
                = some (postSess e c.n_ctx p mt m sess.rng) := by
              apply get_context_setCtx
              rw [hget]
              rfl
            show nativeGenerateText e true (setCtx s handle (postSess e c.n_ctx p mt m sess.rng))
                handle (some p) mt te tp tk
              = ((generateWith e c.n_ctx p mt).1,
                 setCtx s handle (postSess e c.n_ctx p mt m sess.rng))
            rw [generate_valid_full e (setCtx s handle (postSess e c.n_ctx p mt m sess.rng)) handle
              (postSess e c.n_ctx p mt m sess.rng) m
              { n_ctx := c.n_ctx, cache := (generateWith e c.n_ctx p mt).2.2 } p mt te tp tk
              hget2 rfl rfl hh hpe]
            exact congrArg (fun z => ((generateWith e c.n_ctx p mt).1, z))
              (setCtx_setCtx s handle (postSess e c.n_ctx p mt m sess.rng))

/-! ### Handle issuance along traces -/

/-- A load preserves the registry invariant and the counter's
monotonicity, and either fails (returning 0) or returns the old counter
value and bumps it by one. -/
lemma load_preserves (e : Engine) (env : Bool) (mp : Option String) (cs th : Int)
    (s : JniState) (hI : Inv s) :
    Inv (nativeLoadModel e env mp cs th s).2 ∧
    s.next_handle ≤ (nativeLoadModel e env mp cs th s).2.next_handle ∧
    ((nativeLoadModel e env mp cs th s).1 = 0 ∨
      ((nativeLoadModel e env mp cs th s).1 = s.next_handle ∧
       (nativeLoadModel e env mp cs th s).2.next_handle = s.next_handle + 1)) := by
  obtain ⟨hpos, hnodup, hbound⟩ := hI
  rcases nativeLoadModel_cases e env mp cs th s with ⟨h0, hc, hn⟩ | ⟨hv, hn, m, hc⟩
  · refine ⟨⟨?_, ?_, ?_⟩, ?_, Or.inl h0⟩
    · rw [hn]; exact hpos
    · rw [hc]; exact hnodup
    · intro p hp
      rw [hc] at hp
      rw [hn]
      exact hbound p hp
    · rw [hn]
  · refine ⟨⟨?_, ?_, ?_⟩, ?_, Or.inr ⟨hv, hn⟩⟩
    · rw [hn]; omega
    · rw [hc, List.map_cons]
      refine List.nodup_cons.mpr ⟨?_, hnodup⟩
      intro hmem
      obtain ⟨q, hq, hq2⟩ := List.mem_map.mp hmem
      have := hbound q hq
      simp only [] at hq2
      omega
    · intro p hp
      rw [hc] at hp
      rw [hn]
      rcases List.mem_cons.mp hp with rfl | hp
      · exact ⟨hpos, by omega⟩
      · have := hbound p hp
        omega
    · rw [hn]; omega

/-- Cleanup preserves the registry invariant and the counter. -/
lemma cleanup_preserves (h : Int) (s : JniState) (hI : Inv s) :
    Inv (nativeCleanup h s).1 ∧ (nativeCleanup h s).1.next_handle = s.next_handle := by
  obtain ⟨hpos, hnodup, hbound⟩ := hI
  by_cases h0 : h = 0
  · unfold nativeCleanup
    rw [if_pos h0]
    exact ⟨⟨hpos, hnodup, hbound⟩, rfl⟩
  · unfold nativeCleanup
    rw [if_neg h0]
    refine ⟨⟨hpos, ?_, ?_⟩, rfl⟩
    · have hsub : List.Sublist (s.contexts.filter (fun p => p.1 != h)) s.contexts :=
        List.filter_sublist _
      exact List.Nodup.sublist (hsub.map Prod.fst) hnodup
    · intro p hp
      exact hbound p (List.mem_of_mem_filter hp)

/-- Along any trace from an invariant state, the invariant holds, the
counter never decreases, and the issued handles all lie in
[current counter, final counter) and form a strictly increasing chain. -/
lemma runOps_spec (e : Engine) :
    ∀ (ops : List Op) (s : JniState), Inv s →
      Inv (runOps e s ops).1 ∧
      s.next_handle ≤ (runOps e s ops).1.next_handle ∧
      (∀ h ∈ (runOps e s ops).2, s.next_handle ≤ h ∧ h < (runOps e s ops).1.next_handle) ∧
      ((runOps e s ops).2).Chain' (· < ·) := by
  intro ops
  induction ops with
  | nil =>
    intro s hI
    exact ⟨hI, le_refl _, fun h hm => absurd hm (List.not_mem_nil h), List.chain'_nil⟩
  | cons op ops ih =>
    intro s hI
    cases op with
    | cleanup h =>
      obtain ⟨hI1, hnext1⟩ := cleanup_preserves h s hI
      obtain ⟨hI2, hle2, hmem2, hch2⟩ := ih (nativeCleanup h s).1 hI1
      simp only [runOps, runOp, issued, List.nil_append]
      refine ⟨hI2, by omega, ?_, hch2⟩
      intro x hx
      have := hmem2 x hx
      omega
    | load env mp cs th =>
      have hpos := hI.1
      obtain ⟨hI1, hle1, hcase⟩ := load_preserves e env mp cs th s hI
      obtain ⟨hI2, hle2, hmem2, hch2⟩ := ih (nativeLoadModel e env mp cs th s).2 hI1
      simp only [runOps, runOp, issued]
      rcases hcase with h0 | ⟨hv, hn⟩
      · rw [if_pos h0]
        simp only [List.nil_append]
        refine ⟨hI2, by omega, ?_, hch2⟩
        intro x hx
        have := hmem2 x hx
        omega
      · rw [if_neg (by omega : ¬(nativeLoadModel e env mp cs th s).1 = 0)]
        simp only [List.cons_append, List.nil_append]
        refine ⟨hI2, by omega, ?_, ?_⟩
        · intro x hx
          rcases List.mem_cons.mp hx with rfl | hx
          · exact ⟨by omega, by have := hmem2; omega⟩
          · have := hmem2 x hx
            omega
        · refine List.chain'_cons'.mpr ⟨?_, hch2⟩
          intro y hy
          have hymem := hmem2 y (List.mem_of_mem_head? hy)
          omega

/-- C3: along every trace of load and cleanup requests from the process
start state, the handles issued by successful loads are strictly
increasing in issuance order (hence pairwise distinct), all positive, 0
is never issued, and the final registry (like every intermediate one,
by the step lemma) never holds two sessions with the same handle. -/
theorem handles_unique_increasing (e : Engine) (ops : List Op) :
    ((runOps e s0 ops).2).Chain' (· < ·) ∧
    (∀ h ∈ (runOps e s0 ops).2, 0 < h) ∧
    (0 : Int) ∉ (runOps e s0 ops).2 ∧
    ((runOps e s0 ops).2).Nodup ∧
    (((runOps e s0 ops).1.contexts.map Prod.fst)).Nodup := by
  have hI0 : Inv s0 :=
    ⟨by norm_num [s0], List.nodup_nil, fun p hp => absurd hp (List.not_mem_nil p)⟩
  obtain ⟨hI, hle, hmem, hch⟩ := runOps_spec e ops s0 hI0
  have hs0 : s0.next_handle = 1 := rfl
  refine ⟨hch, ?_, ?_, ?_, hI.2.1⟩
  · intro h hm
    have := (hmem h hm).1
    omega
  · intro hm
    have := (hmem 0 hm).1
    omega
  · have hp := List.chain'_iff_pairwise.mp hch
    exact hp.imp (fun hlt => ne_of_lt hlt)

/-- A two-load trace used to exercise the trace theorem. -/
def demoOps : List Op := [Op.load true (some "m") 512 4, Op.load true (some "m") 512 4]

/-- C3 witness: the demo trace issues handle 1 (then 2), and issued
handles are positive. -/
theorem handles_unique_increasing_witness :
    (1 : Int) ∈ (runOps demoEngine s0 demoOps).2 ∧ (0 : Int) < 1 :=
  ⟨by decide, (handles_unique_increasing demoEngine demoOps).2.1 1 (by decide)⟩

end LlamaJni
